import Mathlib

/-!
# Verification of the rapids template-instantiation reporter

A shallow embedding of `rapids-template-instantiation-reporter.py`.

Strings manipulated by the canonicalizer are modelled as `List Char`
(`String.data`); `str.replace(pat, "")` is modelled by `pyRemove`, a
left-to-right non-overlapping scan, `str.strip()` by `pyStrip`, and
`line.split("<")[0]` by `takeWhile`.  External collaborators (shutil.which,
the ninja build-graph query, the cuobjdump → cu++filt → grep pipeline and the
filesystem existence test) are modelled as oracle arguments: the program only
observes their decoded line output, an exception, or a Boolean, so each is an
explicit parameter of the corresponding definition.  Python `Counter` objects
are modelled by their count functions together with explicit (deduplicated)
key lists; `Counter.most_common()` — CPython's stable descending sort on
counts — is modelled by `List.insertionSort` with the count-descending
relation, which is likewise stable, and tie order is nowhere relied upon.
-/

/-- The ASCII whitespace characters removed by Python `str.strip()`
(space, tab, newline, carriage return, vertical tab, form feed). -/
def pyIsSpace (c : Char) : Bool :=
  c == ' ' || c == '\t' || c == '\n' || c == '\r' ||
    c == Char.ofNat 11 || c == Char.ofNat 12

/-- Fuelled worker for `pyRemove`.  At each position, if the pattern matches,
skip it and continue scanning after the match (no rescan of the produced
output), otherwise keep the character; this is the scan performed by CPython's
`str.replace(pat, "")`.  One unit of fuel is spent per examined position, so
fuel `l.length` always suffices. -/
def pyRemoveFuel (pat : List Char) : Nat → List Char → List Char
  | _, [] => []
  | 0, l => l
  | fuel+1, c :: cs =>
    if pat.isPrefixOf (c :: cs) && !pat.isEmpty then
      pyRemoveFuel pat fuel (cs.drop (pat.length - 1))
    else
      c :: pyRemoveFuel pat fuel cs

/-- Python `line.replace(pat, "")`: delete every (leftmost, non-overlapping)
occurrence of `pat`. -/
def pyRemove (pat l : List Char) : List Char := pyRemoveFuel pat l.length l

/-- Python `line.strip()`: remove leading, then trailing, whitespace. -/
def pyStrip (l : List Char) : List Char :=
  ((l.dropWhile pyIsSpace).reverse.dropWhile pyIsSpace).reverse

/-- `extract_template` (lines 31–38): remove every occurrence of the literal
substrings `"Function"` and `"void"`, strip surrounding whitespace, and, if a
`'<'` remains, keep only the part before the first `'<'`
(`line.split("<")[0]`). -/
def extract_template (line : List Char) : List Char :=
  let l1 := pyRemove "Function".data line
  let l2 := pyRemove "void".data l1
  let l3 := pyStrip l2
  if '<' ∈ l3 then l3.takeWhile (fun c => !(c == '<')) else l3

/-- `extract_template` acting on `String`s. -/
def extract_template_str (s : String) : String := String.mk (extract_template s.data)

/-- Object-file paths, used as opaque keys. -/
abbrev Obj := String

/-- Canonical kernel identities. -/
abbrev Ker := String

/-- One (object, kernel) instantiation occurrence. -/
abbrev Occurrence := Obj × Ker

/-- `obj_kernel_counts = Counter(obj_kernel_tuples)` viewed as its count
function: the multiplicity of an (object, kernel) pair in the stream. -/
def obj_kernel_counts (occs : List Occurrence) (p : Occurrence) : Nat := occs.count p

/-- `obj_kernel_counts.items()`: every distinct pair of the stream together
with its multiplicity (the iteration order of the Python dict is immaterial to
every property proved below). -/
def counterItems (occs : List Occurrence) : List (Occurrence × Nat) :=
  occs.dedup.map (fun p => (p, occs.count p))

/-- The aggregation index built in `main` (lines 119–133): the two nested
Counter tables and the two total Counters, each modelled by its count
function. -/
@[ext] structure AggIndex where
  obj2kernel : Obj → Ker → Nat
  kernel2obj : Ker → Obj → Nat
  kernel_counts : Ker → Nat
  obj_counts : Obj → Nat

/-- The state before the aggregation loop: four empty Counters. -/
def emptyIndex : AggIndex :=
  ⟨fun _ _ => 0, fun _ _ => 0, fun _ => 0, fun _ => 0⟩

/-- One iteration of the aggregation loop: fan the multiplicity of one
distinct pair out into the four tables. -/
def updateIndex (st : AggIndex) (item : Occurrence × Nat) : AggIndex where
  obj2kernel := fun o k =>
    st.obj2kernel o k + if o = item.1.1 ∧ k = item.1.2 then item.2 else 0
  kernel2obj := fun k o =>
    st.kernel2obj k o + if k = item.1.2 ∧ o = item.1.1 then item.2 else 0
  kernel_counts := fun k => st.kernel_counts k + if k = item.1.2 then item.2 else 0
  obj_counts := fun o => st.obj_counts o + if o = item.1.1 then item.2 else 0

/-- The aggregation loop of `main`: fold the update over the items of the
pair Counter. -/
def buildIndex (occs : List Occurrence) : AggIndex :=
  (counterItems occs).foldl updateIndex emptyIndex

/-- The distinct objects of the stream: the key set of `obj_counts` and
`obj2kernel`. -/
def objKeys (occs : List Occurrence) : List Obj := (occs.map Prod.fst).dedup

/-- The distinct kernels of the stream: the key set of `kernel_counts` and
`kernel2obj`. -/
def kerKeys (occs : List Occurrence) : List Ker := (occs.map Prod.snd).dedup

/-- The key set of the inner Counter `obj2kernel[o]`: the distinct kernels
paired with object `o` in the stream. -/
def objHistKeys (occs : List Occurrence) (o : Obj) : List Ker :=
  ((occs.filter (fun p => p.1 == o)).map Prod.snd).dedup

/-- The key set of the inner Counter `kernel2obj[k]`. -/
def kerHistKeys (occs : List Occurrence) (k : Ker) : List Obj :=
  ((occs.filter (fun p => p.2 == k)).map Prod.fst).dedup

/-- `get_kernels` (lines 41–54).  The three-stage external pipeline
(`cuobjdump -res-usage | cu++filt | grep Function`), including the UTF-8
decode and `splitlines()`, is modelled by the oracle `pipeline`, which
produces either the surviving output lines or the message of the exception
raised (launch failure, non-zero exit status via check=True, or decode
failure).  On success every line is canonicalized; on any failure the message
is printed and the empty list is returned. -/
def get_kernels (pipeline : Obj → Except String (List String))
    (object_file_path : Obj) : List Ker :=
  match pipeline object_file_path with
  | Except.ok lines => lines.map extract_template_str
  | Except.error _ => []

/-- The generator expression of `main` (lines 109–113): the stream of
(object, kernel) occurrences over all enumerated objects. -/
def obj_kernel_tuples (pipeline : Obj → Except String (List String)) :
    List Obj → List Occurrence
  | [] => []
  | obj :: rest =>
      (get_kernels pipeline obj).map (fun k => (obj, k)) ++
        obj_kernel_tuples pipeline rest

/-- The ranking relation of `Counter.most_common()`: count descending. -/
def byCountDesc {α : Type} (a b : α × Nat) : Prop := b.2 ≤ a.2

instance {α : Type} : DecidableRel (@byCountDesc α) := fun a b => Nat.decLe b.2 a.2

instance {α : Type} : IsTotal (α × Nat) byCountDesc := ⟨fun a b => Nat.le_total b.2 a.2⟩

instance {α : Type} : IsTrans (α × Nat) byCountDesc :=
  ⟨fun _ _ _ hab hbc => Nat.le_trans hbc hab⟩

/-- `Counter.most_common()`: the entries sorted by count, descending (CPython
uses a stable sort; `insertionSort` is likewise stable, and no property below
depends on the order of tied entries). -/
def most_common {α : Type} (items : List (α × Nat)) : List (α × Nat) :=
  List.insertionSort byCountDesc items

/-- `most_common()[:top_n]` where `top_n` is `None` or a slice bound: `None`
keeps the whole list. -/
def renderList {α : Type} (items : List (α × Nat)) (top_n : Option Nat) :
    List (α × Nat) :=
  match top_n with
  | none => most_common items
  | some n => (most_common items).take n

/-- The entries of `obj_counts`: each distinct object with its total. -/
def objSummaryEntries (occs : List Occurrence) : List (Obj × Nat) :=
  (objKeys occs).map (fun o => (o, (buildIndex occs).obj_counts o))

/-- The entries of `kernel_counts`. -/
def kerSummaryEntries (occs : List Occurrence) : List (Ker × Nat) :=
  (kerKeys occs).map (fun k => (k, (buildIndex occs).kernel_counts k))

/-- The object summary list rendered by `main` (line 139):
`obj_counts.most_common()[:top_n]`. -/
def objectSummary (occs : List Occurrence) (top_n : Option Nat) : List (Obj × Nat) :=
  renderList (objSummaryEntries occs) top_n

/-- The kernel summary list rendered by `main` (line 147). -/
def kernelSummary (occs : List Occurrence) (top_n : Option Nat) : List (Ker × Nat) :=
  renderList (kerSummaryEntries occs) top_n

/-- The per-object detail list (line 162): `obj2kernel[obj].most_common()`,
never truncated. -/
def objectDetail (occs : List Occurrence) (o : Obj) : List (Ker × Nat) :=
  most_common ((objHistKeys occs o).map (fun k => (k, (buildIndex occs).obj2kernel o k)))

/-- The per-kernel detail list (line 173). -/
def kernelDetail (occs : List Occurrence) (k : Ker) : List (Obj × Nat) :=
  most_common ((kerHistKeys occs k).map (fun o => (o, (buildIndex occs).kernel2obj k o)))

/-- `str(Path(build_dir) / x)`, modelled as joining with a slash.  The path
normalisation performed by pathlib is abstracted away: every property proved
about `get_object_files` concerns only the shape of the returned list. -/
def pathJoin (a b : String) : String := a ++ "/" ++ b

/-- `line.strip()` on `String`s. -/
def pyStripStr (s : String) : String := String.mk (pyStrip s.data)

/-- Python `s.endswith(suf)`. -/
def pyEndsWith (s suf : String) : Bool := suf.data.isSuffixOf s.data

/-- The value contributed by one kept line of the ninja output:
`str(build_dir / line.strip())`. -/
def gofLine (build_dir line : String) : String := pathJoin build_dir (pyStripStr line)

/-- The list comprehension of `get_object_files` (lines 72–76): keep the
lines ending in `".o"` (tested on the raw line, before stripping), each
stripped and joined onto the build directory, in order and with duplicates
retained. -/
def gofFilterMap (build_dir : String) : List String → List String
  | [] => []
  | line :: rest =>
      if pyEndsWith line ".o" then gofLine build_dir line :: gofFilterMap build_dir rest
      else gofFilterMap build_dir rest

/-- `get_object_files` (lines 56–76).  The `ninja -C build_dir -t inputs
target` invocation is modelled by its decoded output lines `ninjaOut`, and the
filesystem test `target_path.exists()` by the Boolean `target_exists`.  The
self-object, when the target itself is an existing `.o` path, is appended
after the comprehension's results. -/
def get_object_files (ninjaOut : List String) (target_exists : Bool)
    (build_dir target : String) : List String :=
  gofFilterMap build_dir ninjaOut ++
    (if target_exists && pyEndsWith (pathJoin build_dir target) ".o"
     then [pathJoin build_dir target] else [])

/-- The four required external binaries checked by `main` (line 90). -/
def binary_names : List String := ["ninja", "grep", "cuobjdump", "cu++filt"]

/-- The diagnostic printed for one missing binary (line 98). -/
def missing_msg (name : String) : String :=
  "Could not find " ++ name ++ ". Make sure " ++ name ++ " is in PATH."

/-- The observable outcome of one run of `main`: the diagnostics printed for
missing binaries, the process exit status, and the aggregation index the
report sections read (`none` when the run aborts pre-flight). -/
structure RunResult where
  diagnostics : List String
  exitCode : Nat
  report : Option AggIndex

/-- `main` (lines 79–133), up to the construction of the aggregation index.
`shutil.which` is modelled by the oracle `which`.  If any required binary is
missing, one diagnostic per missing binary is printed and the process exits
with status 1 (`exit(1)`) before any other work; otherwise the objects are
enumerated, extracted and aggregated, and the script finishes with exit
status 0 regardless of per-object extraction failures. -/
def main_model (which : String → Option String)
    (pipeline : Obj → Except String (List String))
    (ninjaOut : List String) (target_exists : Bool)
    (build_dir target : String) : RunResult :=
  let binaries := binary_names.map which
  if binaries.any (fun b => b.isNone) then
    { diagnostics := (binary_names.filter (fun n => (which n).isNone)).map missing_msg
      exitCode := 1
      report := none }
  else
    { diagnostics := []
      exitCode := 0
      report := some (buildIndex (obj_kernel_tuples pipeline
        (get_object_files ninjaOut target_exists build_dir target))) }

/-! ## Theorems -/

/-- Fuel does not matter for `pyRemoveFuel` once it is at least the length of
the scanned list. -/
theorem pyRemoveFuel_irrel (pat : List Char) :
    ∀ (f1 f2 : Nat) (l : List Char), l.length ≤ f1 → l.length ≤ f2 →
      pyRemoveFuel pat f1 l = pyRemoveFuel pat f2 l := by
  intro f1
  induction f1 with
  | zero =>
    intro f2 l h1 _
    have hl : l = [] := List.length_eq_zero.mp (Nat.le_zero.mp h1)
    subst hl
    cases f2 <;> rfl
  | succ n ih =>
    intro f2 l h1 h2
    cases l with
    | nil => cases f2 <;> rfl
    | cons c cs =>
      cases f2 with
      | zero => simp at h2
      | succ m =>
        simp only [pyRemoveFuel]
        by_cases h : (pat.isPrefixOf (c :: cs) && !pat.isEmpty) = true
        · rw [if_pos h, if_pos h]
          apply ih
          · simp only [List.length_drop]
            simp only [List.length_cons] at h1
            omega
          · simp only [List.length_drop]
            simp only [List.length_cons] at h2
            omega
        · rw [if_neg h, if_neg h]
          have h1' : cs.length ≤ n := by simpa using h1
          have h2' : cs.length ≤ m := by simpa using h2
          rw [ih m cs h1' h2']

/-- Unfolding `pyRemove` when the pattern matches at the head. -/
theorem pyRemove_cons_of_pos {pat : List Char} {c : Char} {cs : List Char}
    (h : (pat.isPrefixOf (c :: cs) && !pat.isEmpty) = true) :
    pyRemove pat (c :: cs) = pyRemove pat (cs.drop (pat.length - 1)) := by
  show pyRemoveFuel pat (cs.length + 1) (c :: cs) = _
  simp only [pyRemoveFuel, if_pos h]
  apply pyRemoveFuel_irrel <;> simp [List.length_drop]

/-- Unfolding `pyRemove` when the pattern does not match at the head. -/
theorem pyRemove_cons_of_neg {pat : List Char} {c : Char} {cs : List Char}
    (h : ¬ ((pat.isPrefixOf (c :: cs) && !pat.isEmpty) = true)) :
    pyRemove pat (c :: cs) = c :: pyRemove pat cs := by
  show pyRemoveFuel pat (cs.length + 1) (c :: cs) = _
  simp only [pyRemoveFuel, if_neg h]
  rfl

/-- A string with no occurrence of the pattern is untouched by `pyRemove`. -/
theorem pyRemove_no_occ (pat : List Char) :
    ∀ (l : List Char), ¬ (pat <:+: l) → pyRemove pat l = l := by
  intro l
  induction l with
  | nil => intro _; rfl
  | cons c cs ih =>
    intro h
    have hnp : ¬ (pat.isPrefixOf (c :: cs) && !pat.isEmpty) = true := by
      intro hb
      have hp : pat <+: (c :: cs) := by
        cases hpp : pat.isPrefixOf (c :: cs) with
        | false => rw [hpp] at hb; simp at hb
        | true => exact List.isPrefixOf_iff_prefix.mp hpp
      exact h hp.isInfix
    rw [pyRemove_cons_of_neg hnp, ih (fun hin => ?_)]
    obtain ⟨s, t, hst⟩ := hin
    exact h ⟨c :: s, t, by rw [← hst]; rfl⟩

/-- The head of a `dropWhile` result never satisfies the predicate. -/
theorem dropWhile_head_not {α : Type} (p : α → Bool) :
    ∀ (l : List α) {c : α} {cs : List α}, l.dropWhile p = c :: cs → p c = false := by
  intro l
  induction l with
  | nil => intro c cs h; simp at h
  | cons a as ih =>
    intro c cs h
    rw [List.dropWhile_cons] at h
    by_cases ha : p a = true
    · rw [if_pos ha] at h
      exact ih h
    · rw [if_neg ha] at h
      cases h
      simpa using ha

/-- Stripping only ever removes characters from the back of the
left-stripped list. -/
theorem pyStrip_isPre (x : List Char) : (pyStrip x) <+: x.dropWhile pyIsSpace := by
  unfold pyStrip
  have h1 : (x.dropWhile pyIsSpace).reverse.dropWhile pyIsSpace <:+
      (x.dropWhile pyIsSpace).reverse := List.dropWhile_suffix _
  have h2 := List.reverse_prefix.mpr h1
  rwa [List.reverse_reverse] at h2

/-- The canonicalizer's result extends to the left-stripped token-free text:
both the strip and the truncation at `'<'` only discard a (possibly empty)
tail. -/
theorem extract_template_isPre (l : List Char) :
    extract_template l <+:
      (pyRemove "void".data (pyRemove "Function".data l)).dropWhile pyIsSpace := by
  simp only [extract_template]
  by_cases h : '<' ∈ pyStrip (pyRemove "void".data (pyRemove "Function".data l))
  · rw [if_pos h]
    exact ( List.takeWhile_prefix _).trans (pyStrip_isPre _)
  · rw [if_neg h]
    exact pyStrip_isPre _

/-- C1 (amended): `extract_template` never returns leading whitespace, because
the strip happens while the whole line is still in hand.  The original claim —
that the result carries no surrounding whitespace at all — is false: the strip
precedes the truncation at the first `'<'`, so whitespace sitting immediately
before the `'<'` survives as trailing whitespace of the result (see
`extract_template_trailing_space_cex`). -/
theorem extract_template_no_leading_whitespace (l : List Char) :
    (extract_template l).dropWhile pyIsSpace = extract_template l := by
  cases hr : extract_template l with
  | nil => rfl
  | cons c cs =>
    have hpre := extract_template_isPre l
    rw [hr] at hpre
    obtain ⟨t, ht⟩ := hpre
    have hc : pyIsSpace c = false := dropWhile_head_not pyIsSpace _ ht.symm
    rw [List.dropWhile_cons, hc]
    simp

/-- C1 (counterexample): on a line with whitespace before the template
argument list, canonicalization returns `"foo "` — with a trailing space — so
the returned identity is not whitespace-trimmed as claimed. -/
theorem extract_template_trailing_space_cex :
    extract_template "Function void foo <int>(T1)".data = "foo ".data ∧
      pyStrip (extract_template "Function void foo <int>(T1)".data) ≠
        extract_template "Function void foo <int>(T1)".data := by decide

/-- The canonicalizer's result never contains `'<'`: if one was present the
text is truncated strictly before it. -/
theorem extract_template_no_lt (l : List Char) : '<' ∉ extract_template l := by
  simp only [extract_template]
  by_cases h : '<' ∈ pyStrip (pyRemove "void".data (pyRemove "Function".data l))
  · rw [if_pos h]
    intro hmem
    have := List.mem_takeWhile_imp hmem
    simp at this
  · rw [if_neg h]
    exact h

/-- A string with no `"Function"` or `"void"` occurrence, no surrounding
whitespace and no `'<'` is a fixed point of the canonicalizer. -/
theorem extract_template_fixed (t : List Char)
    (h1 : ¬ ("Function".data <:+: t)) (h2 : ¬ ("void".data <:+: t))
    (h3 : pyStrip t = t) (h4 : '<' ∉ t) : extract_template t = t := by
  simp only [extract_template]
  rw [pyRemove_no_occ _ _ h1, pyRemove_no_occ _ _ h2, h3, if_neg h4]

/-- C2 (amended): canonicalization is idempotent on every input whose
canonical form contains no `"Function"` or `"void"` substring and carries no
surrounding whitespace.  Unrestricted idempotence is false: deleting the
tokens can splice a new token occurrence together, and a trailing space can
survive the truncation at `'<'` (see `extract_template_not_idempotent_cex`). -/
theorem extract_template_idempotent_of_clean (s : List Char)
    (h1 : ¬ ("Function".data <:+: extract_template s))
    (h2 : ¬ ("void".data <:+: extract_template s))
    (h3 : pyStrip (extract_template s) = extract_template s) :
    extract_template (extract_template s) = extract_template s :=
  extract_template_fixed _ h1 h2 h3 (extract_template_no_lt s)

/-- Witness for C2's amended theorem at a realistic line: canonicalizing
`"Function void ns::foo<int, double>(T1 *)"` twice equals canonicalizing it
once. -/
theorem extract_template_idempotent_witness :
    extract_template (extract_template "Function void ns::foo<int, double>(T1 *)".data) =
      extract_template "Function void ns::foo<int, double>(T1 *)".data :=
  extract_template_idempotent_of_clean _ (by decide) (by decide) (by decide)

/-- C2 (counterexample): canonicalization is not idempotent for every string.
`"FunFunctionction"` canonicalizes to `"Function"` (deleting the interior
occurrence splices a new one together, and CPython's `str.replace` does not
rescan its output), which re-canonicalizes to `""`. -/
theorem extract_template_not_idempotent_cex :
    extract_template (extract_template "FunFunctionction".data) ≠
      extract_template "FunFunctionction".data := by decide

/-- C10: the canonicalizer deletes every occurrence of `"Function"` and
`"void"` anywhere in the line, not only leading whole tokens:
`"ns::avoid_kernel<int>(T1 *)"` canonicalizes to `"ns::a_kernel"`, not to the
leading-token-only reading `"ns::avoid_kernel"`. -/
theorem extract_template_removes_interior_tokens :
    extract_template "ns::avoid_kernel<int>(T1 *)".data = "ns::a_kernel".data ∧
      extract_template "ns::avoid_kernel<int>(T1 *)".data ≠ "ns::avoid_kernel".data := by
  decide

/-- Counting a pair is independent of which (lawful) Boolean-equality
instance performs it; bridges the instance elaborated in the definitions
above to the one in Mathlib's dedup lemmas. -/
theorem count_pair_eq (l : List Occurrence) (a : Occurrence) :
    l.count a = @List.count Occurrence instBEqOfDecidableEq a l := by
  rw [List.count_eq_countP, @List.count_eq_countP Occurrence instBEqOfDecidableEq]
  apply List.countP_congr
  intro x _
  simp [instBEqOfDecidableEq, beq_iff_eq]

/-- Characterisation of the aggregation fold: `obj_counts` accumulates the
multiplicities of the items whose pair has the given object. -/
theorem foldl_updateIndex_obj_counts :
    ∀ (items : List (Occurrence × Nat)) (st : AggIndex) (o : Obj),
      (items.foldl updateIndex st).obj_counts o =
        st.obj_counts o + ((items.filter (fun it => it.1.1 == o)).map (fun it => it.2)).sum := by
  intro items
  induction items with
  | nil => intro st o; simp
  | cons it rest ih =>
    intro st o
    rw [List.foldl_cons, ih, List.filter_cons]
    by_cases h : o = it.1.1
    · rw [if_pos (by simp [h])]
      simp [updateIndex, if_pos h, Nat.add_assoc]
    · rw [if_neg (by simp only [beq_iff_eq]; exact fun hh => h hh.symm)]
      simp [updateIndex, if_neg h]

/-- Characterisation of the aggregation fold for `kernel_counts`. -/
theorem foldl_updateIndex_kernel_counts :
    ∀ (items : List (Occurrence × Nat)) (st : AggIndex) (k : Ker),
      (items.foldl updateIndex st).kernel_counts k =
        st.kernel_counts k + ((items.filter (fun it => it.1.2 == k)).map (fun it => it.2)).sum := by
  intro items
  induction items with
  | nil => intro st k; simp
  | cons it rest ih =>
    intro st k
    rw [List.foldl_cons, ih, List.filter_cons]
    by_cases h : k = it.1.2
    · rw [if_pos (by simp [h])]
      simp [updateIndex, if_pos h, Nat.add_assoc]
    · rw [if_neg (by simp only [beq_iff_eq]; exact fun hh => h hh.symm)]
      simp [updateIndex, if_neg h]

/-- Characterisation of the aggregation fold for the nested table
`obj2kernel`. -/
theorem foldl_updateIndex_obj2kernel :
    ∀ (items : List (Occurrence × Nat)) (st : AggIndex) (o : Obj) (k : Ker),
      (items.foldl updateIndex st).obj2kernel o k =
        st.obj2kernel o k +
          ((items.filter (fun it => it.1.1 == o && it.1.2 == k)).map (fun it => it.2)).sum := by
  intro items
  induction items with
  | nil => intro st o k; simp
  | cons it rest ih =>
    intro st o k
    rw [List.foldl_cons, ih, List.filter_cons]
    by_cases h : o = it.1.1 ∧ k = it.1.2
    · rw [if_pos (by simp [h.1, h.2])]
      simp [updateIndex, if_pos h, Nat.add_assoc]
    · rw [if_neg (by
        simp only [Bool.and_eq_true, beq_iff_eq]
        exact fun hh => h ⟨hh.1.symm, hh.2.symm⟩)]
      simp [updateIndex, if_neg h]

/-- Characterisation of the aggregation fold for the nested table
`kernel2obj`. -/
theorem foldl_updateIndex_kernel2obj :
    ∀ (items : List (Occurrence × Nat)) (st : AggIndex) (k : Ker) (o : Obj),
      (items.foldl updateIndex st).kernel2obj k o =
        st.kernel2obj k o +
          ((items.filter (fun it => it.1.1 == o && it.1.2 == k)).map (fun it => it.2)).sum := by
  intro items
  induction items with
  | nil => intro st k o; simp
  | cons it rest ih =>
    intro st k o
    rw [List.foldl_cons, ih, List.filter_cons]
    by_cases h : k = it.1.2 ∧ o = it.1.1
    · rw [if_pos (by simp [h.1, h.2])]
      simp [updateIndex, if_pos h, Nat.add_assoc]
    · rw [if_neg (by
        simp only [Bool.and_eq_true, beq_iff_eq]
        exact fun hh => h ⟨hh.2.symm, hh.1.symm⟩)]
      simp [updateIndex, if_neg h]

/-- The aggregated per-object total equals the number of stream occurrences
with that object. -/
theorem buildIndex_obj_counts (occs : List Occurrence) (o : Obj) :
    (buildIndex occs).obj_counts o = (occs.filter (fun p => p.1 == o)).length := by
  unfold buildIndex
  rw [foldl_updateIndex_obj_counts]
  show 0 + _ = _
  rw [Nat.zero_add]
  unfold counterItems
  rw [List.filter_map, List.map_map]
  have hmap : ((fun it : Occurrence × Nat => it.2) ∘ fun p => (p, occs.count p)) =
      fun p => @List.count Occurrence instBEqOfDecidableEq p occs := by
    funext p
    exact count_pair_eq occs p
  rw [hmap]
  have := List.sum_map_count_dedup_filter_eq_countP
    ((fun it : Occurrence × Nat => it.1.1 == o) ∘ fun p => (p, occs.count p)) occs
  rw [this, List.countP_eq_length_filter]
  rfl

/-- The aggregated per-kernel total equals the number of stream occurrences
with that kernel. -/
theorem buildIndex_kernel_counts (occs : List Occurrence) (k : Ker) :
    (buildIndex occs).kernel_counts k = (occs.filter (fun p => p.2 == k)).length := by
  unfold buildIndex
  rw [foldl_updateIndex_kernel_counts]
  show 0 + _ = _
  rw [Nat.zero_add]
  unfold counterItems
  rw [List.filter_map, List.map_map]
  have hmap : ((fun it : Occurrence × Nat => it.2) ∘ fun p => (p, occs.count p)) =
      fun p => @List.count Occurrence instBEqOfDecidableEq p occs := by
    funext p
    exact count_pair_eq occs p
  rw [hmap]
  have := List.sum_map_count_dedup_filter_eq_countP
    ((fun it : Occurrence × Nat => it.1.2 == k) ∘ fun p => (p, occs.count p)) occs
  rw [this, List.countP_eq_length_filter]
  rfl

/-- The nested table entry `obj2kernel[o][k]` equals the multiplicity of the
pair `(o, k)` in the stream. -/
theorem buildIndex_obj2kernel (occs : List Occurrence) (o : Obj) (k : Ker) :
    (buildIndex occs).obj2kernel o k = occs.count (o, k) := by
  unfold buildIndex
  rw [foldl_updateIndex_obj2kernel]
  show 0 + _ = _
  rw [Nat.zero_add]
  unfold counterItems
  rw [List.filter_map, List.map_map]
  have hmap : ((fun it : Occurrence × Nat => it.2) ∘ fun p => (p, occs.count p)) =
      fun p => @List.count Occurrence instBEqOfDecidableEq p occs := by
    funext p
    exact count_pair_eq occs p
  rw [hmap]
  have := List.sum_map_count_dedup_filter_eq_countP
    ((fun it : Occurrence × Nat => it.1.1 == o && it.1.2 == k) ∘ fun p => (p, occs.count p)) occs
  rw [this]
  rw [count_pair_eq, @List.count_eq_countP Occurrence instBEqOfDecidableEq]
  apply List.countP_congr
  intro x _
  simp only [Function.comp]
  constructor
  · intro hx
    have h1 : x.1 = o ∧ x.2 = k := by simpa using hx
    simp [instBEqOfDecidableEq, Prod.ext_iff, h1.1, h1.2]
  · intro hx
    have h1 : x = (o, k) := by simpa [instBEqOfDecidableEq] using hx
    simp [h1]

/-- The nested table entry `kernel2obj[k][o]` equals the multiplicity of the
pair `(o, k)` in the stream. -/
theorem buildIndex_kernel2obj (occs : List Occurrence) (k : Ker) (o : Obj) :
    (buildIndex occs).kernel2obj k o = occs.count (o, k) := by
  unfold buildIndex
  rw [foldl_updateIndex_kernel2obj]
  show 0 + _ = _
  rw [Nat.zero_add]
  have h := buildIndex_obj2kernel occs o k
  unfold buildIndex at h
  rw [foldl_updateIndex_obj2kernel] at h
  rw [← h]
  show _ = 0 + _
  rw [Nat.zero_add]

/-- Counting an object among the stream's first components is the same as
measuring the filtered stream. -/
theorem filter_fst_length (occs : List Occurrence) (o : Obj) :
    (occs.filter (fun p => p.1 == o)).length =
      @List.count Obj instBEqOfDecidableEq o (occs.map Prod.fst) := by
  rw [@List.count_eq_countP Obj instBEqOfDecidableEq, List.countP_map,
    ← List.countP_eq_length_filter]
  apply List.countP_congr
  intro p _
  simp [instBEqOfDecidableEq, Function.comp, beq_iff_eq]

/-- Counting a kernel among the stream's second components is the same as
measuring the filtered stream. -/
theorem filter_snd_length (occs : List Occurrence) (k : Ker) :
    (occs.filter (fun p => p.2 == k)).length =
      @List.count Ker instBEqOfDecidableEq k (occs.map Prod.snd) := by
  rw [@List.count_eq_countP Ker instBEqOfDecidableEq, List.countP_map,
    ← List.countP_eq_length_filter]
  apply List.countP_congr
  intro p _
  simp [instBEqOfDecidableEq, Function.comp, beq_iff_eq]

/-- C3: count conservation.  Summing `obj_counts` over the distinct objects
of the stream, or `kernel_counts` over its distinct kernels, recovers exactly
the total number of occurrences. -/
theorem count_conservation (occs : List Occurrence) :
    ((objKeys occs).map ((buildIndex occs).obj_counts)).sum = occs.length ∧
      ((kerKeys occs).map ((buildIndex occs).kernel_counts)).sum = occs.length := by
  constructor
  · have h1 : (occs.map Prod.fst).dedup.map ((buildIndex occs).obj_counts) =
        (occs.map Prod.fst).dedup.map
          (fun o => @List.count Obj instBEqOfDecidableEq o (occs.map Prod.fst)) :=
      List.map_congr_left (fun o _ => by rw [buildIndex_obj_counts, filter_fst_length])
    unfold objKeys
    rw [h1, List.sum_map_count_dedup_eq_length, List.length_map]
  · have h1 : (occs.map Prod.snd).dedup.map ((buildIndex occs).kernel_counts) =
        (occs.map Prod.snd).dedup.map
          (fun k => @List.count Ker instBEqOfDecidableEq k (occs.map Prod.snd)) :=
      List.map_congr_left (fun k _ => by rw [buildIndex_kernel_counts, filter_snd_length])
    unfold kerKeys
    rw [h1, List.sum_map_count_dedup_eq_length, List.length_map]

/-- In a list whose elements all share the first component `o`, counting the
pair `(o, k)` is the same as counting `k` among the second components. -/
theorem count_snd_of_fst_eq (o : Obj) (k : Ker) :
    ∀ (m : List Occurrence), (∀ p ∈ m, p.1 = o) →
      m.count (o, k) = @List.count Ker instBEqOfDecidableEq k (m.map Prod.snd) := by
  intro m
  induction m with
  | nil => intro _; rfl
  | cons p rest ih =>
    intro h
    have hp : p.1 = o := h p (List.mem_cons_self p rest)
    rw [List.map_cons, List.count_cons, List.count_cons,
      ih (fun q hq => h q (List.mem_cons_of_mem _ hq))]
    congr 1
    by_cases hk : p.2 = k
    · rw [if_pos (by simp [Prod.ext_iff, hp, hk]),
        if_pos (by simp [instBEqOfDecidableEq, hk])]
    · rw [if_neg (by simp [Prod.ext_iff, hk]),
        if_neg (by simp [instBEqOfDecidableEq, hk])]

/-- In a list whose elements all share the second component `k`, counting the
pair `(o, k)` is the same as counting `o` among the first components. -/
theorem count_fst_of_snd_eq (o : Obj) (k : Ker) :
    ∀ (m : List Occurrence), (∀ p ∈ m, p.2 = k) →
      m.count (o, k) = @List.count Obj instBEqOfDecidableEq o (m.map Prod.fst) := by
  intro m
  induction m with
  | nil => intro _; rfl
  | cons p rest ih =>
    intro h
    have hp : p.2 = k := h p (List.mem_cons_self p rest)
    rw [List.map_cons, List.count_cons, List.count_cons,
      ih (fun q hq => h q (List.mem_cons_of_mem _ hq))]
    congr 1
    by_cases ho : p.1 = o
    · rw [if_pos (by simp [Prod.ext_iff, hp, ho]),
        if_pos (by simp [instBEqOfDecidableEq, ho])]
    · rw [if_neg (by simp [Prod.ext_iff, ho]),
        if_neg (by simp [instBEqOfDecidableEq, ho])]

/-- C4: histogram/pair consistency.  For every object the values of its
kernel histogram sum to its total, which also equals the sum of the pair
multiplicities over the distinct pairs with that object; symmetrically for
every kernel. -/
theorem histogram_pair_consistency (occs : List Occurrence) :
    (∀ o : Obj,
        ((objHistKeys occs o).map (fun k => (buildIndex occs).obj2kernel o k)).sum
            = (buildIndex occs).obj_counts o ∧
          (buildIndex occs).obj_counts o
            = ((occs.dedup.filter (fun p => p.1 == o)).map (obj_kernel_counts occs)).sum) ∧
      ∀ k : Ker,
        ((kerHistKeys occs k).map (fun o => (buildIndex occs).kernel2obj k o)).sum
            = (buildIndex occs).kernel_counts k ∧
          (buildIndex occs).kernel_counts k
            = ((occs.dedup.filter (fun p => p.2 == k)).map (obj_kernel_counts occs)).sum := by
  constructor
  · intro o
    constructor
    · have hm : ∀ p ∈ occs.filter (fun p => p.1 == o), p.1 = o := by
        intro p hp
        simpa using (List.mem_filter.mp hp).2
      have hcongr : (objHistKeys occs o).map (fun k => (buildIndex occs).obj2kernel o k)
          = (objHistKeys occs o).map (fun k => @List.count Ker instBEqOfDecidableEq k
              ((occs.filter (fun p => p.1 == o)).map Prod.snd)) := by
        apply List.map_congr_left
        intro k _
        rw [buildIndex_obj2kernel,
          ← List.count_filter (p := fun p : Occurrence => p.1 == o) (by simp)]
        exact count_snd_of_fst_eq o k _ hm
      rw [hcongr]
      unfold objHistKeys
      rw [List.sum_map_count_dedup_eq_length, List.length_map, buildIndex_obj_counts]
    · rw [buildIndex_obj_counts,
        show obj_kernel_counts occs =
          fun p => @List.count Occurrence instBEqOfDecidableEq p occs
          from funext (count_pair_eq occs)]
      rw [List.sum_map_count_dedup_filter_eq_countP, List.countP_eq_length_filter]
  · intro k
    constructor
    · have hm : ∀ p ∈ occs.filter (fun p => p.2 == k), p.2 = k := by
        intro p hp
        simpa using (List.mem_filter.mp hp).2
      have hcongr : (kerHistKeys occs k).map (fun o => (buildIndex occs).kernel2obj k o)
          = (kerHistKeys occs k).map (fun o => @List.count Obj instBEqOfDecidableEq o
              ((occs.filter (fun p => p.2 == k)).map Prod.fst)) := by
        apply List.map_congr_left
        intro o _
        rw [buildIndex_kernel2obj,
          ← List.count_filter (p := fun p : Occurrence => p.2 == k) (by simp)]
        exact count_fst_of_snd_eq o k _ hm
      rw [hcongr]
      unfold kerHistKeys
      rw [List.sum_map_count_dedup_eq_length, List.length_map, buildIndex_kernel_counts]
    · rw [buildIndex_kernel_counts,
        show obj_kernel_counts occs =
          fun p => @List.count Occurrence instBEqOfDecidableEq p occs
          from funext (count_pair_eq occs)]
      rw [List.sum_map_count_dedup_filter_eq_countP, List.countP_eq_length_filter]

/-- C5: order independence.  Building the index from any permutation of the
occurrence stream yields the same four tables, and the pair Counter itself is
unchanged. -/
theorem order_independence (occs1 occs2 : List Occurrence) (h : occs1.Perm occs2) :
    buildIndex occs1 = buildIndex occs2 ∧
      ∀ p : Occurrence, obj_kernel_counts occs1 p = obj_kernel_counts occs2 p := by
  have hcnt : ∀ p : Occurrence, occs1.count p = occs2.count p := by
    intro p
    rw [List.count_eq_countP, List.count_eq_countP]
    exact h.countP_eq _
  have hfil : ∀ q : Occurrence → Bool, (occs1.filter q).length = (occs2.filter q).length :=
    fun q => (h.filter q).length_eq
  refine ⟨?_, fun p => hcnt p⟩
  ext
  · rw [buildIndex_obj2kernel, buildIndex_obj2kernel]
    exact hcnt _
  · rw [buildIndex_kernel2obj, buildIndex_kernel2obj]
    exact hcnt _
  · rw [buildIndex_kernel_counts, buildIndex_kernel_counts]
    exact hfil _
  · rw [buildIndex_obj_counts, buildIndex_obj_counts]
    exact hfil _

/-- Witness for C5 at a concrete stream: a transposed two-object stream
builds the identical index. -/
theorem order_independence_witness :
    buildIndex [("a.o", "k1"), ("b.o", "k2"), ("a.o", "k1")] =
      buildIndex [("b.o", "k2"), ("a.o", "k1"), ("a.o", "k1")] :=
  (order_independence _ _ (by decide)).1

/-- Every stream element's object component is one of the processed
objects. -/
theorem obj_kernel_tuples_fst_mem (pipeline : Obj → Except String (List String)) :
    ∀ (objects : List Obj) (p : Occurrence),
      p ∈ obj_kernel_tuples pipeline objects → p.1 ∈ objects := by
  intro objects
  induction objects with
  | nil => intro p hp; simp [obj_kernel_tuples] at hp
  | cons obj rest ih =>
    intro p hp
    simp only [obj_kernel_tuples] at hp
    rcases List.mem_append.mp hp with h1 | h2
    · obtain ⟨k, _, hk⟩ := List.mem_map.mp h1
      rw [← hk]
      exact List.mem_cons_self _ _
    · exact List.mem_cons_of_mem _ (ih p h2)

/-- C6: extraction-failure isolation.  When the pipeline raises for one
object, that object yields the empty kernel list, the occurrence stream (and
hence the whole index) is the one obtained with the failing object removed
from the enumeration, and the failing object appears nowhere in the index —
its object key is absent and its total is zero. -/
theorem extraction_failure_isolation (pipeline : Obj → Except String (List String))
    (objects : List Obj) (ob : Obj) (e : String)
    (he : pipeline ob = Except.error e) :
    get_kernels pipeline ob = [] ∧
      obj_kernel_tuples pipeline objects =
        obj_kernel_tuples pipeline (objects.filter (fun o => !(o == ob))) ∧
      ob ∉ (obj_kernel_tuples pipeline objects).map Prod.fst ∧
      (buildIndex (obj_kernel_tuples pipeline objects)).obj_counts ob = 0 := by
  have hk : get_kernels pipeline ob = [] := by
    unfold get_kernels
    rw [he]
  have hstream : obj_kernel_tuples pipeline objects =
      obj_kernel_tuples pipeline (objects.filter (fun o => !(o == ob))) := by
    induction objects with
    | nil => rfl
    | cons obj rest ih =>
      rw [List.filter_cons]
      by_cases h : obj = ob
      · rw [if_neg (by simp [h])]
        simp only [obj_kernel_tuples]
        rw [h, hk, List.map_nil, List.nil_append, ih]
      · rw [if_pos (by simp [h])]
        simp only [obj_kernel_tuples]
        rw [ih]
  have hnotmem : ob ∉ (obj_kernel_tuples pipeline objects).map Prod.fst := by
    intro hmem
    obtain ⟨p, hp, hfst⟩ := List.mem_map.mp hmem
    rw [hstream] at hp
    have h1 := obj_kernel_tuples_fst_mem pipeline _ p hp
    have h2 := (List.mem_filter.mp h1).2
    rw [hfst] at h2
    simp at h2
  refine ⟨hk, hstream, hnotmem, ?_⟩
  rw [buildIndex_obj_counts, List.length_eq_zero, List.filter_eq_nil_iff]
  intro p hp hb
  apply hnotmem
  exact List.mem_map.mpr ⟨p, hp, by simpa using hb⟩

/-- Witness for C6: with a pipeline failing exactly on `"O2.o"` among three
objects, the built index assigns that object a zero total. -/
theorem extraction_failure_isolation_witness :
    get_kernels
        (fun o => if o == "O2.o" then Except.error "boom"
          else Except.ok ["Function void f<int>(T)"]) "O2.o" = [] ∧
      (buildIndex (obj_kernel_tuples
          (fun o => if o == "O2.o" then Except.error "boom"
            else Except.ok ["Function void f<int>(T)"])
          ["O1.o", "O2.o", "O3.o"])).obj_counts "O2.o" = 0 :=
  ⟨(extraction_failure_isolation _ ["O1.o", "O2.o", "O3.o"] "O2.o" "boom" rfl).1,
    (extraction_failure_isolation _ ["O1.o", "O2.o", "O3.o"] "O2.o" "boom" rfl).2.2.2⟩

/-- In a sorted list every element kept by `take n` is related to every
element discarded into `drop n`. -/
theorem sorted_take_drop {α : Type} (r : α → α → Prop) (l : List α) (n : Nat)
    (h : List.Sorted r l) : ∀ a ∈ l.take n, ∀ b ∈ l.drop n, r a b := by
  have hp : List.Pairwise r (l.take n ++ l.drop n) := by
    rw [List.take_append_drop]
    exact h
  exact (List.pairwise_append.mp hp).2.2

/-- C7: ranking and truncation.  Every rendered list is sorted by
non-increasing count; with `top_n` unset the whole entry list is shown (a
permutation of the entries); with a positive `top_n` exactly the first
`top_n` entries of the descending sort are shown, and no shown entry has a
smaller count than any omitted one.  The program's summary and detail lists
are instances of this rendering. -/
theorem render_ranking (items : List (Obj × Nat)) (occs : List Occurrence)
    (n : Nat) (hn : 0 < n) :
    List.Sorted byCountDesc (renderList items (some n)) ∧
      renderList items none = most_common items ∧
      (most_common items).Perm items ∧
      renderList items (some n) = (most_common items).take n ∧
      (∀ a ∈ renderList items (some n), ∀ b ∈ (most_common items).drop n, b.2 ≤ a.2) ∧
      List.Sorted byCountDesc (objectSummary occs (some n)) ∧
      List.Sorted byCountDesc (kernelSummary occs none) ∧
      ∀ o : Obj, List.Sorted byCountDesc (objectDetail occs o) := by
  have hs : ∀ (its : List (Obj × Nat)), List.Sorted byCountDesc (most_common its) :=
    fun its => List.sorted_insertionSort byCountDesc its
  refine ⟨?_, rfl, List.perm_insertionSort byCountDesc items, rfl, ?_, ?_, hs _, fun o => hs _⟩
  · exact List.Pairwise.sublist (List.take_sublist n _) (hs items)
  · intro a ha b hb
    exact sorted_take_drop byCountDesc (most_common items) n (hs items) a ha b hb
  · exact List.Pairwise.sublist (List.take_sublist n _) (hs _)

/-- Witness for C7 on the spec's example entries `[A:10, B:7, C:7, D:2]`
with `top_n = 2`: the truncated rendering is sorted and dominates every
omitted entry. -/
theorem render_ranking_witness :
    List.Sorted byCountDesc
        (renderList [("A", 10), ("B", 7), ("C", 7), ("D", 2)] (some 2)) ∧
      ∀ a ∈ renderList [("A", 10), ("B", 7), ("C", 7), ("D", 2)] (some 2),
        ∀ b ∈ (most_common [("A", 10), ("B", 7), ("C", 7), ("D", 2)]).drop 2, b.2 ≤ a.2 :=
  ⟨(render_ranking [("A", 10), ("B", 7), ("C", 7), ("D", 2)] [] 2 (by decide)).1,
    (render_ranking [("A", 10), ("B", 7), ("C", 7), ("D", 2)] [] 2 (by decide)).2.2.2.2.1⟩

/-- The comprehension loop equals filter-then-map. -/
theorem gofFilterMap_eq (build_dir : String) :
    ∀ (lines : List String),
      gofFilterMap build_dir lines =
        (lines.filter (fun l => pyEndsWith l ".o")).map (gofLine build_dir) := by
  intro lines
  induction lines with
  | nil => rfl
  | cons line rest ih =>
    rw [List.filter_cons]
    by_cases h : pyEndsWith line ".o" = true
    · rw [if_pos h]
      simp only [gofFilterMap, if_pos h, List.map_cons]
      rw [ih]
    · rw [if_neg h]
      simp only [gofFilterMap, if_neg h]
      exact ih

/-- Mapping a function over a list never decreases the count of an image. -/
theorem count_map_le (f : String → String) :
    ∀ (l : List String) (a : String), l.count a ≤ (l.map f).count (f a) := by
  intro l a
  induction l with
  | nil => exact Nat.le_refl 0
  | cons x xs ih =>
    rw [List.map_cons, List.count_cons, List.count_cons]
    by_cases h : x = a
    · subst h
      rw [if_pos (by simp), if_pos (by simp)]
      omega
    · rw [if_neg (by simp [h])]
      by_cases h2 : (f x == f a) = true
      · rw [if_pos h2]
        omega
      · rw [if_neg h2]
        omega

/-- C8: object enumeration.  `get_object_files` returns exactly the
`".o"`-suffixed query lines, stripped and joined onto the build directory, in
query order; duplicates propagate (the count of a produced path is at least
the count of its source line), and when the target itself is an existing
`.o` path it is appended as the last element — otherwise the list is the
mapped query output alone. -/
theorem get_object_files_behavior (ninjaOut : List String) (tex : Bool)
    (bd tgt : String) :
    get_object_files ninjaOut tex bd tgt =
        (ninjaOut.filter (fun l => pyEndsWith l ".o")).map (gofLine bd) ++
          (if tex && pyEndsWith (pathJoin bd tgt) ".o" then [pathJoin bd tgt] else []) ∧
      (∀ l : String, (ninjaOut.filter (fun l2 => pyEndsWith l2 ".o")).count l ≤
        (get_object_files ninjaOut tex bd tgt).count (gofLine bd l)) ∧
      ((tex && pyEndsWith (pathJoin bd tgt) ".o") = true →
        (get_object_files ninjaOut tex bd tgt).getLast? = some (pathJoin bd tgt)) ∧
      ((tex && pyEndsWith (pathJoin bd tgt) ".o") = false →
        get_object_files ninjaOut tex bd tgt =
          (ninjaOut.filter (fun l => pyEndsWith l ".o")).map (gofLine bd)) := by
  have hfm := gofFilterMap_eq bd ninjaOut
  refine ⟨?_, ?_, ?_, ?_⟩
  · unfold get_object_files
    rw [hfm]
  · intro l
    unfold get_object_files
    rw [hfm, List.count_append]
    exact Nat.le_trans (count_map_le (gofLine bd) _ l) (Nat.le_add_right _ _)
  · intro h
    unfold get_object_files
    rw [if_pos h, List.getLast?_concat]
  · intro h
    unfold get_object_files
    rw [if_neg (by rw [h]; exact Bool.false_ne_true), List.append_nil, hfm]

/-- Witness for C8: with query output `["x.o", "note.txt", "x.o"]` and an
existing `.o` target, the self-object comes last and the duplicated line
keeps its multiplicity. -/
theorem get_object_files_witness :
    (get_object_files ["x.o", "note.txt", "x.o"] true "bd" "t.o").getLast?
        = some (pathJoin "bd" "t.o") ∧
      (["x.o", "note.txt", "x.o"].filter (fun l2 => pyEndsWith l2 ".o")).count "x.o" ≤
        (get_object_files ["x.o", "note.txt", "x.o"] true "bd" "t.o").count
          (gofLine "bd" "x.o") :=
  ⟨(get_object_files_behavior ["x.o", "note.txt", "x.o"] true "bd" "t.o").2.2.1 (by decide),
    (get_object_files_behavior ["x.o", "note.txt", "x.o"] true "bd" "t.o").2.1 "x.o"⟩

/-- C9: pre-flight binary resolution.  If any of the four required binaries
cannot be located, the run exits with status 1 before building anything, and
the diagnostics contain the dedicated line for every missing binary, not only
the first; if all four resolve, the run prints no diagnostic and exits with
status 0 carrying the built report, whatever the extraction pipeline does for
individual objects. -/
theorem preflight_behavior (which : String → Option String)
    (pipeline : Obj → Except String (List String)) (ninjaOut : List String)
    (tex : Bool) (bd tgt : String) :
    ((∃ nm ∈ binary_names, which nm = none) →
        (main_model which pipeline ninjaOut tex bd tgt).exitCode = 1 ∧
          (main_model which pipeline ninjaOut tex bd tgt).report = none ∧
          ∀ nm ∈ binary_names, which nm = none →
            missing_msg nm ∈ (main_model which pipeline ninjaOut tex bd tgt).diagnostics) ∧
      ((∀ nm ∈ binary_names, (which nm).isSome) →
        (main_model which pipeline ninjaOut tex bd tgt).exitCode = 0 ∧
          (main_model which pipeline ninjaOut tex bd tgt).diagnostics = [] ∧
          (main_model which pipeline ninjaOut tex bd tgt).report =
            some (buildIndex (obj_kernel_tuples pipeline
              (get_object_files ninjaOut tex bd tgt)))) := by
  have hany : ((binary_names.map which).any (fun b => b.isNone) = true) ↔
      ∃ nm ∈ binary_names, which nm = none := by
    rw [List.any_eq_true]
    constructor
    · rintro ⟨b, hb, hbn⟩
      obtain ⟨nm, hnm, rfl⟩ := List.mem_map.mp hb
      exact ⟨nm, hnm, Option.isNone_iff_eq_none.mp hbn⟩
    · rintro ⟨nm, hnm, hn⟩
      exact ⟨which nm, List.mem_map_of_mem _ hnm, by rw [hn]; rfl⟩
  constructor
  · intro hex
    simp only [main_model]
    rw [if_pos (hany.mpr hex)]
    refine ⟨rfl, rfl, ?_⟩
    intro nm hnm hn
    apply List.mem_map_of_mem
    rw [List.mem_filter]
    exact ⟨hnm, by rw [hn]; rfl⟩
  · intro hall
    have hnone : ¬ ((binary_names.map which).any (fun b => b.isNone) = true) := by
      intro hc
      obtain ⟨nm, hnm, hn⟩ := hany.mp hc
      have := hall nm hnm
      rw [hn] at this
      simp at this
    simp only [main_model]
    rw [if_neg hnone]
    exact ⟨rfl, rfl, rfl⟩

/-- Witness for C9, in two concrete scenarios: with `ninja` and `cu++filt`
unresolvable the exit status is 1 and both diagnostic lines are present; with
all four binaries resolved and a pipeline that fails for every object, the
exit status is still 0. -/
theorem preflight_behavior_witness :
    (main_model
        (fun nm => if nm == "ninja" || nm == "cu++filt" then none else some "/usr/bin/tool")
        (fun _ => Except.error "fail") [] false "." "t").exitCode = 1 ∧
      missing_msg "ninja" ∈ (main_model
        (fun nm => if nm == "ninja" || nm == "cu++filt" then none else some "/usr/bin/tool")
        (fun _ => Except.error "fail") [] false "." "t").diagnostics ∧
      missing_msg "cu++filt" ∈ (main_model
        (fun nm => if nm == "ninja" || nm == "cu++filt" then none else some "/usr/bin/tool")
        (fun _ => Except.error "fail") [] false "." "t").diagnostics ∧
      (main_model (fun _ => some "/usr/bin/tool")
        (fun _ => Except.error "fail") [] false "." "t").exitCode = 0 := by
  refine ⟨?_, ?_, ?_, ?_⟩
  · exact ((preflight_behavior _ _ _ _ _ _).1 ⟨"ninja", by decide, rfl⟩).1
  · exact ((preflight_behavior _ _ _ _ _ _).1 ⟨"ninja", by decide, rfl⟩).2.2
      "ninja" (by decide) rfl
  · exact ((preflight_behavior _ _ _ _ _ _).1 ⟨"ninja", by decide, rfl⟩).2.2
      "cu++filt" (by decide) rfl
  · exact ((preflight_behavior (fun _ => some "/usr/bin/tool")
      (fun _ => Except.error "fail") [] false "." "t").2 (fun nm _ => rfl)).1
